import Mathlib

/-!
# Smart Video Speed Controller — verification of the core algorithms

Shallow embedding of the core of the Smart-Video-Speed-Controller repository:
the segment scheduler (`src/processor.py`), the SRT subtitle catalog builder
and timestamp conversion (`src/subtitle_parser.py`), the data models
(`src/models.py`) and the duration estimator (`_print_segment_info` in
`src/processor.py`).

Modelling conventions:
* Python `float` second values are modelled as rationals (`ℚ`); the claims
  under study are exact arithmetic identities and inequalities.
* Python strings are modelled as `List Char` (`Str`), with structural
  counterparts of the `str` operations the parser uses (`split`, `strip`,
  `replace`, `join`), so every definition evaluates inside the kernel.
* Python exceptions are modelled with `Except String` / `Option`: a raised
  `ValueError` / `ValidationError` / `SubtitleExtractionError` is an
  `Except.error` (resp. `none`), a normal return is `Except.ok` (`some`).
* File and process I/O (reading the SRT file, probing the video duration with
  ffmpeg, checking that the input file exists and that ffmpeg is installed)
  are external collaborators; the embedded functions receive the file content
  and the probed duration as explicit arguments.
-/

/-- Python strings, modelled as their character lists. -/
abbrev Str := List Char

/-- Prepend a character to the first chunk of a split result
(auxiliary for the `str.split` models). -/
def consHead (x : Char) : List Str → List Str
  | [] => [[x]]
  | s :: ss => (x :: s) :: ss

/-- Python `s.split(c)` for a single-character separator `c`: split at every
occurrence, keeping empty chunks. -/
def splitOnChar (c : Char) : Str → List Str
  | [] => [[]]
  | x :: xs => if x = c then [] :: splitOnChar c xs else consHead x (splitOnChar c xs)

/-- Python `s.split('\n\n')` (the `Config.SRT_BLOCK_DELIMITER` split):
left-to-right, non-overlapping, keeping empty chunks. -/
def splitTwoNl : Str → List Str
  | '\n' :: '\n' :: xs => [] :: splitTwoNl xs
  | x :: xs => consHead x (splitTwoNl xs)
  | [] => [[]]

/-- Python `s.split(' --> ')` (the `Config.SRT_TIME_DELIMITER` split):
left-to-right, non-overlapping, keeping empty chunks. -/
def splitArrow : Str → List Str
  | ' ' :: '-' :: '-' :: '>' :: ' ' :: xs => [] :: splitArrow xs
  | x :: xs => consHead x (splitArrow xs)
  | [] => [[]]

/-- The ASCII whitespace characters stripped by Python `str.strip()`. -/
def isPySpace (c : Char) : Bool :=
  c = ' ' ∨ c = '\t' ∨ c = '\n' ∨ c = '\r' ∨ c = Char.ofNat 11 ∨ c = Char.ofNat 12

/-- Python `s.strip()`: drop leading and trailing whitespace. -/
def pyStrip (s : Str) : Str :=
  ((s.dropWhile isPySpace).reverse.dropWhile isPySpace).reverse

/-- Python `' '.join(parts)`. -/
def joinSpace : List Str → Str
  | [] => []
  | [s] => s
  | s :: rest => s ++ ' ' :: joinSpace rest

/-- The natural number denoted by a list of decimal digit characters
(empty list denotes `0`). -/
def digitsToNat (cs : Str) : Nat :=
  cs.foldl (fun a c => a * 10 + (c.toNat - 48)) 0

/-- Python's builtin `float()` conversion, on the decimal-literal subset that
matters here: an optional `+`/`-` sign followed by digits with at most one
`.` (at least one digit overall). `none` models a raised `ValueError`.
(The `inf`/`nan` words, exponents, underscores and surrounding whitespace
accepted by the real builtin are out of scope: the parser feeds it
already-stripped colon-free tokens.) Note that signed (negative) literals
are accepted, exactly as in Python. -/
def pyFloat (s : Str) : Option ℚ :=
  let (sign, rest) : ℚ × Str :=
    match s with
    | '-' :: r => (-1, r)
    | '+' :: r => (1, r)
    | r => (1, r)
  let intPart := rest.takeWhile Char.isDigit
  let rest2 := rest.dropWhile Char.isDigit
  match rest2 with
  | [] =>
      if intPart.isEmpty then none
      else some (sign * (digitsToNat intPart : ℚ))
  | '.' :: frac =>
      if frac.all Char.isDigit ∧ (intPart ≠ [] ∨ frac ≠ []) then
        some (sign * ((digitsToNat intPart : ℚ) + (digitsToNat frac : ℚ) / 10 ^ frac.length))
      else none
  | _ => none

/-- `models.SubtitleSegment`: one subtitle interval (`start_time`, `end_time`
in seconds, and the caption text). -/
structure SubtitleSegment where
  start_time : ℚ
  end_time : ℚ
  text : Str
deriving DecidableEq, Repr

/-- `SubtitleSegment.duration` property from `src/models.py`. -/
def SubtitleSegment.duration (s : SubtitleSegment) : ℚ :=
  s.end_time - s.start_time

/-- `models.VideoSegment`: a constant-speed interval of the output timeline. -/
structure VideoSegment where
  start_time : ℚ
  end_time : ℚ
  speed : ℚ
  has_subtitle : Bool
deriving DecidableEq, Repr

/-- `VideoSegment.duration` property from `src/models.py`. -/
def VideoSegment.duration (s : VideoSegment) : ℚ :=
  s.end_time - s.start_time

/-- `VideoSegment.output_duration` property from `src/models.py`:
`duration / speed`. -/
def VideoSegment.output_duration (s : VideoSegment) : ℚ :=
  s.duration / s.speed

namespace SubtitleParser

/-- `SubtitleParser._parse_srt_time`: normalize `,` to `.`, split on `:`,
require exactly three components, convert each with Python `float()` and
combine as `hours*3600 + minutes*60 + seconds`. `none` models the raised
`ValueError`. -/
def parse_srt_time (time_str : Str) : Option ℚ :=
  let t := time_str.map (fun c => if c = ',' then '.' else c)
  match splitOnChar ':' t with
  | [h, m, sec] =>
      match pyFloat h, pyFloat m, pyFloat sec with
      | some hours, some minutes, some seconds =>
          some (hours * 3600 + minutes * 60 + seconds)
      | _, _, _ => none
  | _ => none

/-- `SubtitleParser._parse_srt_block`. `Except.error` models the raised
`SubtitleExtractionError`; `Except.ok none` models the silent `return None`
skips (block shorter than `Config.MIN_SRT_LINES = 3` lines, or timing line
without the `' --> '` delimiter). A timing line that splits into three or
more pieces makes the tuple unpacking raise `ValueError`, also re-raised as
`SubtitleExtractionError`. -/
def parse_srt_block (block : Str) : Except String (Option SubtitleSegment) :=
  let lines := splitOnChar '\n' block
  if lines.length < 3 then Except.ok none
  else
    let timing_line := lines.getD 1 []
    match splitArrow timing_line with
    | [_] => Except.ok none
    | [start_str, end_str] =>
        match parse_srt_time (pyStrip start_str), parse_srt_time (pyStrip end_str) with
        | some start_time, some end_time =>
            Except.ok (some ⟨start_time, end_time, joinSpace (lines.drop 2)⟩)
        | _, _ => Except.error "Invalid SRT block format"
    | _ => Except.error "Invalid SRT block format"

/-- The block-accumulation loop inside `SubtitleParser.parse_srt_file`:
parse each (stripped) block in order, keep the non-`None` results, re-raise
the first error. -/
def collectBlocks : List Str → Except String (List SubtitleSegment)
  | [] => Except.ok []
  | b :: rest =>
      match parse_srt_block (pyStrip b) with
      | Except.error e => Except.error e
      | Except.ok r =>
          match collectBlocks rest with
          | Except.error e => Except.error e
          | Except.ok rs =>
              match r with
              | some s => Except.ok (s :: rs)
              | none => Except.ok rs

/-- The key order used by `sorted(subtitles, key=lambda x: x.start_time)`. -/
def byStart (a b : SubtitleSegment) : Prop :=
  a.start_time ≤ b.start_time

instance : DecidableRel byStart :=
  fun a b => inferInstanceAs (Decidable (a.start_time ≤ b.start_time))

instance : IsTotal SubtitleSegment byStart := ⟨fun a b => le_total a.start_time b.start_time⟩

instance : IsTrans SubtitleSegment byStart := ⟨fun _ _ _ => le_trans⟩

/-- `SubtitleParser.parse_srt_file`, as a function of the already-read file
content (reading the file, `_read_srt_file`, is collaborator I/O). Python's
`sorted` is a stable sort; it is modelled by `List.insertionSort` with the
non-strict key order `byStart`, which is stable. -/
def parse_srt_file (content : Str) : Except String (List SubtitleSegment) :=
  (collectBlocks (splitTwoNl (pyStrip content))).map (List.insertionSort byStart)

end SubtitleParser

namespace VideoSpeedProcessor

/-- `VideoSpeedProcessor._validate_inputs` (parameter checks only; the
file-existence and ffmpeg-installation checks that precede them are
external-collaborator I/O, outside the core). Raises `ValidationError`
when a speed is `<= 0` or the buffer is negative. -/
def validate_inputs (speed_no_subtitle speed_with_subtitle subtitle_buffer : ℚ) :
    Except String Unit :=
  if speed_no_subtitle ≤ 0 ∨ speed_with_subtitle ≤ 0 then
    Except.error "Speed values must be greater than 0"
  else if subtitle_buffer < 0 then
    Except.error "Subtitle buffer cannot be negative"
  else
    Except.ok ()

/-- `VideoSpeedProcessor._calculate_subtitle_start`:
`max(0, subtitle_start - self.subtitle_buffer)`. -/
def calculate_subtitle_start (subtitle_buffer subtitle_start : ℚ) : ℚ :=
  max 0 (subtitle_start - subtitle_buffer)

/-- `VideoSpeedProcessor._calculate_subtitle_end`:
`min(video_duration, subtitle_end + self.subtitle_buffer)`. -/
def calculate_subtitle_end (subtitle_buffer subtitle_end video_duration : ℚ) : ℚ :=
  min video_duration (subtitle_end + subtitle_buffer)

/-- `VideoSpeedProcessor._create_non_subtitle_segment`. -/
def create_non_subtitle_segment (speed_no_subtitle start stop : ℚ) : VideoSegment :=
  ⟨start, stop, speed_no_subtitle, false⟩

/-- `VideoSpeedProcessor._create_subtitle_segment`. -/
def create_subtitle_segment (speed_with_subtitle start stop : ℚ) : VideoSegment :=
  ⟨start, stop, speed_with_subtitle, true⟩

/-- The loop of `VideoSpeedProcessor._create_video_segments`, with the mutable
`current_time` cursor made an explicit argument and the appends to `segments`
made list concatenation. -/
def create_video_segments_go (sns sws buf D : ℚ) :
    ℚ → List SubtitleSegment → List VideoSegment
  | current_time, [] =>
      if current_time < D then [create_non_subtitle_segment sns current_time D] else []
  | current_time, subtitle :: rest =>
      let sub_start := calculate_subtitle_start buf subtitle.start_time
      let sub_end := calculate_subtitle_end buf subtitle.end_time D
      (if current_time < sub_start then
        [create_non_subtitle_segment sns current_time sub_start] else [])
      ++ create_subtitle_segment sws sub_start sub_end
         :: create_video_segments_go sns sws buf D sub_end rest

/-- `VideoSpeedProcessor._create_video_segments(subtitles, video_duration)`,
for a processor configured with speeds `sns` (no subtitle), `sws` (with
subtitle) and buffer `buf`. -/
def create_video_segments (sns sws buf : ℚ) (subtitles : List SubtitleSegment)
    (video_duration : ℚ) : List VideoSegment :=
  create_video_segments_go sns sws buf video_duration 0 subtitles

/-- The duration estimator in `VideoSpeedProcessor._print_segment_info`:
`sum(seg.output_duration for seg in segments)`. -/
def output_duration_sum (segments : List VideoSegment) : ℚ :=
  (segments.map VideoSegment.output_duration).sum

/-- The percentage in `VideoSpeedProcessor._print_segment_info`:
`(1 - output_duration / video_duration) * 100`. -/
def time_saved_percent (segments : List VideoSegment) (video_duration : ℚ) : ℚ :=
  (1 - output_duration_sum segments / video_duration) * 100

/-- The clamped padded windows of consecutive catalog intervals do not
overlap.  This is the separation hypothesis under which the left-to-right
sweep of `_create_video_segments` is gap-free and overlap-free; the sweep
itself never enforces it. -/
def SeparatedCatalog (buf D : ℚ) (catalog : List SubtitleSegment) : Prop :=
  List.Chain' (fun a b =>
    calculate_subtitle_end buf a.end_time D ≤ calculate_subtitle_start buf b.start_time)
    catalog

/-- Every segment emitted by the sweep is either a no-subtitle segment at
speed `sns` with positive length, or the with-subtitle segment of one of the
catalog intervals, at speed `sws`, spanning exactly that interval's clamped
padded window. -/
lemma mem_create_video_segments_go {sns sws buf D : ℚ} :
    ∀ (l : List SubtitleSegment) (cur : ℚ) (seg : VideoSegment),
      seg ∈ create_video_segments_go sns sws buf D cur l →
      (seg.has_subtitle = false ∧ seg.speed = sns ∧ seg.start_time < seg.end_time) ∨
      (seg.has_subtitle = true ∧ seg.speed = sws ∧ ∃ iv ∈ l,
        seg.start_time = calculate_subtitle_start buf iv.start_time ∧
        seg.end_time = calculate_subtitle_end buf iv.end_time D)
  | [], cur, seg => by
      intro h
      by_cases hlt : cur < D
      · simp only [create_video_segments_go, if_pos hlt, List.mem_singleton] at h
        subst h
        exact Or.inl ⟨rfl, rfl, hlt⟩
      · simp only [create_video_segments_go, if_neg hlt, List.not_mem_nil] at h
  | iv :: rest, cur, seg => by
      intro h
      simp only [create_video_segments_go, List.mem_append, List.mem_cons] at h
      rcases h with h | h | h
      · by_cases hlt : cur < calculate_subtitle_start buf iv.start_time
        · rw [if_pos hlt] at h
          rcases List.mem_singleton.mp h with rfl
          exact Or.inl ⟨rfl, rfl, hlt⟩
        · rw [if_neg hlt] at h
          exact absurd h (List.not_mem_nil seg)
      · subst h
        exact Or.inr ⟨rfl, rfl, iv, List.mem_cons_self iv rest, rfl, rfl⟩
      · rcases mem_create_video_segments_go rest _ seg h with
          h1 | ⟨hs, hsp, iv', hiv', h3, h4⟩
        · exact Or.inl h1
        · exact Or.inr ⟨hs, hsp, iv', List.mem_cons_of_mem _ hiv', h3, h4⟩

/-- The sweep emits the with-subtitle segment of every catalog interval,
unconditionally. -/
lemma create_subtitle_segment_mem_go {sns sws buf D : ℚ} :
    ∀ (l : List SubtitleSegment) (cur : ℚ) (iv : SubtitleSegment), iv ∈ l →
      create_subtitle_segment sws (calculate_subtitle_start buf iv.start_time)
          (calculate_subtitle_end buf iv.end_time D)
        ∈ create_video_segments_go sns sws buf D cur l
  | [], _, iv, h => absurd h (List.not_mem_nil iv)
  | iv0 :: rest, cur, iv, h => by
      simp only [create_video_segments_go, List.mem_append, List.mem_cons]
      rcases List.mem_cons.mp h with rfl | h'
      · exact Or.inr (Or.inl rfl)
      · exact Or.inr (Or.inr (create_subtitle_segment_mem_go rest _ iv h'))

/-- The with-subtitle segments emitted by the sweep are exactly the catalog
intervals' padded windows, one per interval, in catalog order. -/
lemma filter_create_video_segments_go {sns sws buf D : ℚ} :
    ∀ (l : List SubtitleSegment) (cur : ℚ),
      (create_video_segments_go sns sws buf D cur l).filter (fun s => s.has_subtitle) =
        l.map (fun iv => create_subtitle_segment sws
          (calculate_subtitle_start buf iv.start_time)
          (calculate_subtitle_end buf iv.end_time D))
  | [], cur => by
      by_cases hlt : cur < D <;>
        simp [create_video_segments_go, hlt, create_non_subtitle_segment]
  | iv :: rest, cur => by
      by_cases hlt : cur < calculate_subtitle_start buf iv.start_time <;>
        simp [create_video_segments_go, hlt, create_non_subtitle_segment,
          create_subtitle_segment, filter_create_video_segments_go rest]

/-- The sweep never emits two consecutive no-subtitle segments. -/
lemma chain'_hassub_create_video_segments_go {sns sws buf D : ℚ} :
    ∀ (l : List SubtitleSegment) (cur : ℚ),
      List.Chain' (fun a b : VideoSegment => a.has_subtitle = true ∨ b.has_subtitle = true)
        (create_video_segments_go sns sws buf D cur l)
  | [], cur => by
      by_cases hlt : cur < D <;> simp [create_video_segments_go, hlt]
  | iv :: rest, cur => by
      have ih := @chain'_hassub_create_video_segments_go sns sws buf D
        rest (calculate_subtitle_end buf iv.end_time D)
      by_cases hlt : cur < calculate_subtitle_start buf iv.start_time <;>
        simp only [create_video_segments_go, if_pos, if_neg, hlt, ite_true, ite_false,
          List.singleton_append, List.nil_append] <;>
        rw [List.chain'_cons'] <;>
        refine ⟨?_, ?_⟩
      · intro y hy
        rw [List.head?_cons, Option.mem_def, Option.some.injEq] at hy
        subst hy
        exact Or.inr rfl
      · rw [List.chain'_cons']
        exact ⟨fun y _ => Or.inl rfl, ih⟩
      · intro y hy
        exact Or.inl rfl
      · exact ih

/-- The sweep's output is empty exactly when the catalog is empty and the
cursor already reached the total duration. -/
lemma create_video_segments_go_eq_nil_iff {sns sws buf D : ℚ}
    (l : List SubtitleSegment) (cur : ℚ) :
    create_video_segments_go sns sws buf D cur l = [] ↔ l = [] ∧ D ≤ cur := by
  cases l with
  | nil =>
      by_cases hlt : cur < D
      · simp [create_video_segments_go, hlt, not_le.mpr hlt]
      · simp [create_video_segments_go, hlt, not_lt.mp hlt]
  | cons iv rest => simp [create_video_segments_go]

/-- If the cursor has not passed the first interval's padded start, the first
emitted segment starts exactly at the cursor. -/
lemma head_start_create_video_segments_go {sns sws buf D : ℚ}
    (l : List SubtitleSegment) (cur : ℚ)
    (hsep : ∀ iv, l.head? = some iv → cur ≤ calculate_subtitle_start buf iv.start_time) :
    ∀ seg, (create_video_segments_go sns sws buf D cur l).head? = some seg →
      seg.start_time = cur := by
  cases l with
  | nil =>
      intro seg h
      by_cases hlt : cur < D
      · simp only [create_video_segments_go, if_pos hlt, List.head?_cons,
          Option.some.injEq] at h
        subst h
        rfl
      · simp only [create_video_segments_go, if_neg hlt, List.head?_nil] at h
        exact Option.noConfusion h
  | cons iv rest =>
      intro seg h
      have hps := hsep iv rfl
      by_cases hlt : cur < calculate_subtitle_start buf iv.start_time
      · simp only [create_video_segments_go, if_pos hlt, List.singleton_append,
          List.head?_cons, Option.some.injEq] at h
        subst h
        rfl
      · simp only [create_video_segments_go, if_neg hlt, List.nil_append,
          List.head?_cons, Option.some.injEq] at h
        subst h
        exact le_antisymm (not_lt.mp hlt) hps

/-- `getLast?` skips a cons cell when the tail is non-empty. -/
lemma getLast?_cons_ne_nil {α : Type} (a : α) {l : List α} (h : l ≠ []) :
    (a :: l).getLast? = l.getLast? := by
  cases l with
  | nil => exact absurd rfl h
  | cons b t => exact List.getLast?_cons_cons

/-- Whenever the sweep's output is non-empty, its last segment ends exactly at
the total duration. -/
lemma getLast_end_create_video_segments_go {sns sws buf D : ℚ} :
    ∀ (l : List SubtitleSegment) (cur : ℚ), cur ≤ D → (cur < D ∨ l ≠ []) →
      ((create_video_segments_go sns sws buf D cur l).getLast?).map VideoSegment.end_time
        = some D
  | [], cur, hle, hor => by
      have hlt : cur < D := by
        rcases hor with h | h
        · exact h
        · exact absurd rfl h
      simp [create_video_segments_go, hlt, create_non_subtitle_segment]
  | iv :: rest, cur, hle, hor => by
      have hpe : calculate_subtitle_end buf iv.end_time D ≤ D := min_le_left _ _
      by_cases hnil : create_video_segments_go sns sws buf D
          (calculate_subtitle_end buf iv.end_time D) rest = []
      · rcases (create_video_segments_go_eq_nil_iff rest _).mp hnil with ⟨hrest, hDle⟩
        have hpeD : calculate_subtitle_end buf iv.end_time D = D := le_antisymm hpe hDle
        have hnlt : ¬ calculate_subtitle_end buf iv.end_time D < D := by
          rw [hpeD]
          exact lt_irrefl D
        subst hrest
        by_cases hlt : cur < calculate_subtitle_start buf iv.start_time <;>
          simp [create_video_segments_go, hlt, hnlt, List.getLast?_cons_cons,
            create_subtitle_segment, hpeD]
      · have hor' : calculate_subtitle_end buf iv.end_time D < D ∨ rest ≠ [] := by
          rcases eq_or_ne rest [] with hr | hr
          · refine Or.inl ?_
            rcases not_and_or.mp ((create_video_segments_go_eq_nil_iff rest _).not.mp hnil)
              with h | h
            · exact absurd hr h
            · exact lt_of_le_of_ne hpe (fun he => h (le_of_eq he.symm))
          · exact Or.inr hr
        have ih := @getLast_end_create_video_segments_go sns sws buf D rest
          (calculate_subtitle_end buf iv.end_time D) hpe hor'
        by_cases hlt : cur < calculate_subtitle_start buf iv.start_time
        · simp only [create_video_segments_go, if_pos hlt, List.singleton_append]
          rw [getLast?_cons_ne_nil _ (List.cons_ne_nil _ _), getLast?_cons_ne_nil _ hnil]
          exact ih
        · simp only [create_video_segments_go, if_neg hlt, List.nil_append]
          rw [getLast?_cons_ne_nil _ hnil]
          exact ih

/-- Under the separation hypothesis, consecutive emitted segments are exactly
adjacent: each segment's end is the next segment's start. -/
lemma chain'_adjacent_create_video_segments_go {sns sws buf D : ℚ} :
    ∀ (l : List SubtitleSegment) (cur : ℚ), cur ≤ D →
      (∀ iv, l.head? = some iv → cur ≤ calculate_subtitle_start buf iv.start_time) →
      List.Chain' (fun a b =>
        calculate_subtitle_end buf a.end_time D ≤
          calculate_subtitle_start buf b.start_time) l →
      List.Chain' (fun a b : VideoSegment => a.end_time = b.start_time)
        (create_video_segments_go sns sws buf D cur l)
  | [], cur, _, _, _ => by
      by_cases hlt : cur < D <;> simp [create_video_segments_go, hlt]
  | iv :: rest, cur, hle, hsep, hchain => by
      have hpe : calculate_subtitle_end buf iv.end_time D ≤ D := min_le_left _ _
      rw [List.chain'_cons'] at hchain
      have hsep' : ∀ iv', rest.head? = some iv' →
          calculate_subtitle_end buf iv.end_time D ≤
            calculate_subtitle_start buf iv'.start_time :=
        fun iv' h => hchain.1 iv' h
      have ih := @chain'_adjacent_create_video_segments_go sns sws buf D
        rest (calculate_subtitle_end buf iv.end_time D)
        hpe hsep' hchain.2
      have hhead : ∀ y, (create_video_segments_go sns sws buf D
          (calculate_subtitle_end buf iv.end_time D) rest).head? = some y →
          (create_subtitle_segment sws (calculate_subtitle_start buf iv.start_time)
            (calculate_subtitle_end buf iv.end_time D)).end_time = y.start_time := by
        intro y hy
        exact (head_start_create_video_segments_go rest _ hsep' y hy).symm
      by_cases hlt : cur < calculate_subtitle_start buf iv.start_time <;>
        simp only [create_video_segments_go, if_pos, if_neg, hlt, ite_true, ite_false,
          List.singleton_append, List.nil_append] <;>
        rw [List.chain'_cons']
      · refine ⟨?_, ?_⟩
        · intro y hy
          rw [List.head?_cons, Option.mem_def, Option.some.injEq] at hy
          subst hy
          rfl
        · rw [List.chain'_cons']
          exact ⟨fun y hy => hhead y hy, ih⟩
      · exact ⟨fun y hy => hhead y hy, ih⟩

/-- Under the separation hypothesis, the spans of the emitted segments sum to
the part of the timeline between the cursor and the total duration (the sweep
telescopes). -/
lemma duration_sum_create_video_segments_go {sns sws buf D : ℚ} :
    ∀ (l : List SubtitleSegment) (cur : ℚ), cur ≤ D →
      (∀ iv, l.head? = some iv → cur ≤ calculate_subtitle_start buf iv.start_time) →
      List.Chain' (fun a b =>
        calculate_subtitle_end buf a.end_time D ≤
          calculate_subtitle_start buf b.start_time) l →
      ((create_video_segments_go sns sws buf D cur l).map VideoSegment.duration).sum
        = D - cur
  | [], cur, hle, _, _ => by
      by_cases hlt : cur < D
      · simp [create_video_segments_go, hlt, VideoSegment.duration,
          create_non_subtitle_segment]
      · have : cur = D := le_antisymm hle (not_lt.mp hlt)
        simp [create_video_segments_go, hlt, this]
  | iv :: rest, cur, hle, hsep, hchain => by
      have hpe : calculate_subtitle_end buf iv.end_time D ≤ D := min_le_left _ _
      rw [List.chain'_cons'] at hchain
      have hsep' : ∀ iv', rest.head? = some iv' →
          calculate_subtitle_end buf iv.end_time D ≤
            calculate_subtitle_start buf iv'.start_time :=
        fun iv' h => hchain.1 iv' h
      have ih := @duration_sum_create_video_segments_go sns sws buf D
        rest (calculate_subtitle_end buf iv.end_time D)
        hpe hsep' hchain.2
      by_cases hlt : cur < calculate_subtitle_start buf iv.start_time <;>
        simp only [create_video_segments_go, if_pos, if_neg, hlt, ite_true, ite_false,
          List.singleton_append, List.nil_append, List.map_cons, List.map_append,
          List.sum_cons, List.sum_append, ih, VideoSegment.duration,
          create_non_subtitle_segment, create_subtitle_segment]
      · ring
      · have : calculate_subtitle_start buf iv.start_time = cur :=
          le_antisymm (not_lt.mp hlt) (hsep iv rfl)
        rw [this]
        ring

/-- Dividing each non-negative span by a speed that is at least 1 can only
shrink the total. -/
lemma output_duration_sum_le_duration_sum :
    ∀ S : List VideoSegment, (∀ seg ∈ S, 0 ≤ seg.duration ∧ 1 ≤ seg.speed) →
      output_duration_sum S ≤ (S.map VideoSegment.duration).sum
  | [], _ => by simp [output_duration_sum]
  | a :: t, h => by
      have ha := h a (List.mem_cons_self a t)
      have hd : a.output_duration ≤ a.duration := div_le_self ha.1 ha.2
      have ht := output_duration_sum_le_duration_sum t
        (fun seg hs => h seg (List.mem_cons_of_mem _ hs))
      simp only [output_duration_sum, List.map_cons, List.sum_cons] at ht ⊢
      exact add_le_add hd ht

/-- At speed 1 every segment's output duration is exactly its span. -/
lemma output_duration_sum_eq_duration_sum :
    ∀ S : List VideoSegment, (∀ seg ∈ S, seg.speed = 1) →
      output_duration_sum S = (S.map VideoSegment.duration).sum
  | [], _ => by simp [output_duration_sum]
  | a :: t, h => by
      have ha : a.output_duration = a.duration := by
        rw [VideoSegment.output_duration, h a (List.mem_cons_self a t), div_one]
      have ht := output_duration_sum_eq_duration_sum t
        (fun seg hs => h seg (List.mem_cons_of_mem _ hs))
      simp only [output_duration_sum, List.map_cons, List.sum_cons] at ht ⊢
      rw [ha, ht]

/-- **C5.** In every segment sequence produced by `_create_video_segments`,
every segment with `has_subtitle = true` has speed `speed_with_subtitle`, and
every segment with `has_subtitle = false` has speed `speed_no_subtitle`. -/
theorem c5_speed_correctness (sns sws buf D : ℚ) (catalog : List SubtitleSegment)
    (seg : VideoSegment) (hmem : seg ∈ create_video_segments sns sws buf catalog D) :
    (seg.has_subtitle = true → seg.speed = sws) ∧
    (seg.has_subtitle = false → seg.speed = sns) := by
  rcases mem_create_video_segments_go catalog 0 seg hmem with ⟨hf, hsp, _⟩ | ⟨ht, hsp, _⟩
  · refine ⟨fun h => ?_, fun _ => hsp⟩
    rw [hf] at h
    exact Bool.noConfusion h
  · refine ⟨fun _ => hsp, fun h => ?_⟩
    rw [ht] at h
    exact Bool.noConfusion h

/-- Witness for C5: in the spec §8 example, the leading no-subtitle segment
runs at the no-subtitle speed. -/
theorem c5_speed_correctness_witness :
    ((⟨0, 19/2, 2, false⟩ : VideoSegment).has_subtitle = true →
      (⟨0, 19/2, 2, false⟩ : VideoSegment).speed = 1) ∧
    ((⟨0, 19/2, 2, false⟩ : VideoSegment).has_subtitle = false →
      (⟨0, 19/2, 2, false⟩ : VideoSegment).speed = 2) :=
  c5_speed_correctness 2 1 (1/2) 100 [⟨10, 12, []⟩] ⟨0, 19/2, 2, false⟩
    (by with_unfolding_all decide)

/-- **C9.** The with-subtitle segments of the sweep's output are exactly the
catalog intervals' clamped padded windows, one per interval, in catalog
order, with `start = max(0, start - buffer)` and
`end = min(duration, end + buffer)`; in particular their number equals the
catalog's length (no merging, deduplication or dropping). -/
theorem c9_one_subtitle_segment_per_interval (sns sws buf D : ℚ)
    (catalog : List SubtitleSegment) :
    (create_video_segments sns sws buf catalog D).filter (fun s => s.has_subtitle) =
      catalog.map (fun iv => create_subtitle_segment sws
        (calculate_subtitle_start buf iv.start_time)
        (calculate_subtitle_end buf iv.end_time D)) ∧
    ((create_video_segments sns sws buf catalog D).filter
        (fun s => s.has_subtitle)).length = catalog.length := by
  have h : (create_video_segments sns sws buf catalog D).filter (fun s => s.has_subtitle)
      = catalog.map (fun iv => create_subtitle_segment sws
          (calculate_subtitle_start buf iv.start_time)
          (calculate_subtitle_end buf iv.end_time D)) :=
    filter_create_video_segments_go catalog 0
  refine ⟨h, ?_⟩
  rw [h, List.length_map]

/-- **C10.** The sweep never emits two consecutive no-subtitle segments, and
every emitted no-subtitle segment has strictly positive length. -/
theorem c10_no_adjacent_nosub_segments (sns sws buf D : ℚ)
    (catalog : List SubtitleSegment) :
    List.Chain' (fun a b : VideoSegment => a.has_subtitle = true ∨ b.has_subtitle = true)
      (create_video_segments sns sws buf catalog D) ∧
    ∀ seg ∈ create_video_segments sns sws buf catalog D,
      seg.has_subtitle = false → seg.start_time < seg.end_time := by
  refine ⟨chain'_hassub_create_video_segments_go catalog 0, ?_⟩
  intro seg hmem hfalse
  rcases mem_create_video_segments_go catalog 0 seg hmem with ⟨_, _, hpos⟩ | ⟨ht, _, _⟩
  · exact hpos
  · rw [ht] at hfalse
    exact Bool.noConfusion hfalse

/-- Witness for C10 at the spec §8 example. -/
theorem c10_no_adjacent_nosub_segments_witness :
    List.Chain' (fun a b : VideoSegment => a.has_subtitle = true ∨ b.has_subtitle = true)
      (create_video_segments 2 1 (1/2) [⟨10, 12, []⟩] 100) ∧
    ((⟨0, 19/2, 2, false⟩ : VideoSegment).start_time <
      (⟨0, 19/2, 2, false⟩ : VideoSegment).end_time) :=
  ⟨(c10_no_adjacent_nosub_segments 2 1 (1/2) 100 [⟨10, 12, []⟩]).1,
   (c10_no_adjacent_nosub_segments 2 1 (1/2) 100 [⟨10, 12, []⟩]).2
     ⟨0, 19/2, 2, false⟩ (by with_unfolding_all decide) rfl⟩

/-- **C2 (amended).** For every subtitle interval whose clamped padded window
is empty (`paddedEnd ≤ paddedStart`), the scheduler still emits the
with-subtitle segment `[paddedStart, paddedEnd)` — it does not skip emission,
so a `SpeedSegment` with `end ≤ start` is emitted. -/
theorem c2_empty_padded_window_still_emitted (sns sws buf D : ℚ)
    (catalog : List SubtitleSegment) (iv : SubtitleSegment) (hmem : iv ∈ catalog)
    (hempty : calculate_subtitle_end buf iv.end_time D ≤
      calculate_subtitle_start buf iv.start_time) :
    ∃ seg ∈ create_video_segments sns sws buf catalog D,
      seg.has_subtitle = true ∧
      seg.start_time = calculate_subtitle_start buf iv.start_time ∧
      seg.end_time = calculate_subtitle_end buf iv.end_time D ∧
      seg.end_time ≤ seg.start_time :=
  ⟨create_subtitle_segment sws (calculate_subtitle_start buf iv.start_time)
      (calculate_subtitle_end buf iv.end_time D),
    create_subtitle_segment_mem_go catalog 0 iv hmem, rfl, rfl, rfl, hempty⟩

/-- Witness for C2: interval (15,16) with buffer 1/2 is entirely past the
duration 10, its clamped window [29/2, 10] is empty, yet it is emitted. -/
theorem c2_empty_padded_window_still_emitted_witness :
    (⟨15, 16, []⟩ : SubtitleSegment) ∈ [(⟨15, 16, []⟩ : SubtitleSegment)] ∧
    calculate_subtitle_end (1/2) (16 : ℚ) 10 ≤ calculate_subtitle_start (1/2) 15 ∧
    ∃ seg ∈ create_video_segments 2 1 (1/2) [⟨15, 16, []⟩] 10,
      seg.has_subtitle = true ∧
      seg.start_time = calculate_subtitle_start (1/2) (15 : ℚ) ∧
      seg.end_time = calculate_subtitle_end (1/2) (16 : ℚ) 10 ∧
      seg.end_time ≤ seg.start_time :=
  ⟨List.mem_singleton.mpr rfl, by with_unfolding_all decide,
    c2_empty_padded_window_still_emitted 2 1 (1/2) 10 [⟨15, 16, []⟩] ⟨15, 16, []⟩
      (List.mem_singleton.mpr rfl) (by with_unfolding_all decide)⟩

/-- **C2 counterexample.** For the catalog [(15,16)] with buffer 1/2 and
duration 10, the sweep emits the with-subtitle segment [29/2, 10] whose end
lies below its start: zero/negative-length segments are not skipped, contrary
to the claim. -/
theorem c2_counterexample_emits_nonpositive_segment :
    create_video_segments 2 1 (1/2) [⟨15, 16, []⟩] 10 =
      [⟨0, 29/2, 2, false⟩, ⟨29/2, 10, 1, true⟩] ∧
    ((10 : ℚ) ≤ 29/2) := by
  refine ⟨?_, ?_⟩ <;> with_unfolding_all decide

/-- **C1 (amended).** For every catalog satisfying the catalog invariant
*whose consecutive clamped padded windows do not overlap*
(`SeparatedCatalog`), and every duration `D > 0`, the scheduled segments tile
`[0, D)` exactly: the first segment starts at 0, the last ends at `D`, and
each segment's end equals the next segment's start. -/
theorem c1_schedule_tiles_duration (sns sws buf D : ℚ) (catalog : List SubtitleSegment)
    (hD : 0 < D)
    (hpos : ∀ iv ∈ catalog, iv.start_time < iv.end_time)
    (hsorted : List.Sorted SubtitleParser.byStart catalog)
    (hsep : SeparatedCatalog buf D catalog) :
    ((create_video_segments sns sws buf catalog D).head?).map VideoSegment.start_time
        = some 0 ∧
    ((create_video_segments sns sws buf catalog D).getLast?).map VideoSegment.end_time
        = some D ∧
    List.Chain' (fun a b : VideoSegment => a.end_time = b.start_time)
      (create_video_segments sns sws buf catalog D) := by
  have hsep0 : ∀ iv, catalog.head? = some iv →
      (0 : ℚ) ≤ calculate_subtitle_start buf iv.start_time :=
    fun iv _ => le_max_left 0 _
  refine ⟨?_, ?_, ?_⟩
  · cases hh : (create_video_segments sns sws buf catalog D).head? with
    | none =>
        rw [List.head?_eq_none_iff] at hh
        rcases (create_video_segments_go_eq_nil_iff catalog 0).mp hh with ⟨_, hle⟩
        exact absurd hD (not_lt.mpr hle)
    | some seg =>
        rw [Option.map_some']
        exact congrArg some (head_start_create_video_segments_go catalog 0 hsep0 seg hh)
  · exact getLast_end_create_video_segments_go catalog 0 (le_of_lt hD) (Or.inl hD)
  · exact chain'_adjacent_create_video_segments_go catalog 0 (le_of_lt hD) hsep0 hsep

/-- Witness for C1 at the spec §8 example (one interval, no clamping). -/
theorem c1_schedule_tiles_duration_witness :
    ((0 : ℚ) < 100 ∧
      (∀ iv ∈ [(⟨10, 12, []⟩ : SubtitleSegment)], iv.start_time < iv.end_time) ∧
      List.Sorted SubtitleParser.byStart [(⟨10, 12, []⟩ : SubtitleSegment)] ∧
      SeparatedCatalog (1/2) 100 [⟨10, 12, []⟩]) ∧
    (((create_video_segments 2 1 (1/2) [⟨10, 12, []⟩] 100).head?).map
        VideoSegment.start_time = some 0 ∧
      ((create_video_segments 2 1 (1/2) [⟨10, 12, []⟩] 100).getLast?).map
        VideoSegment.end_time = some 100 ∧
      List.Chain' (fun a b : VideoSegment => a.end_time = b.start_time)
        (create_video_segments 2 1 (1/2) [⟨10, 12, []⟩] 100)) :=
  ⟨⟨by norm_num, by with_unfolding_all decide, List.sorted_singleton _,
      List.chain'_singleton _⟩,
    c1_schedule_tiles_duration 2 1 (1/2) 100 [⟨10, 12, []⟩] (by norm_num)
      (by with_unfolding_all decide) (List.sorted_singleton _)
      (List.chain'_singleton _)⟩

/-- **C1 counterexample.** The catalog [(1,2),(11/5,3)] satisfies the catalog
invariant, yet with buffer 1/2 and duration 10 the sweep emits the segments
[0,1/2), [1/2,5/2), [17/10,7/2), [7/2,10): the third starts before the second
ends, so the output does not tile [0,10) (exact adjacency fails). -/
theorem c1_counterexample_overlapping_buffers :
    ((1 : ℚ) < 2 ∧ (11/5 : ℚ) < 3 ∧ (1 : ℚ) ≤ 11/5 ∧ (0 : ℚ) < 10) ∧
    ¬ List.Chain' (fun a b : VideoSegment => a.end_time = b.start_time)
        (create_video_segments 2 1 (1/2) [⟨1, 2, []⟩, ⟨11/5, 3, []⟩] 10) := by
  refine ⟨by norm_num, ?_⟩
  have hlist : create_video_segments 2 1 (1/2) [⟨1, 2, []⟩, ⟨11/5, 3, []⟩] 10 =
      [⟨0, 1/2, 2, false⟩, ⟨1/2, 5/2, 1, true⟩, ⟨17/10, 7/2, 1, true⟩,
        ⟨7/2, 10, 2, false⟩] := by
    with_unfolding_all decide
  rw [hlist]
  intro hch
  have h2 := (List.chain'_cons.mp (List.chain'_cons.mp hch).2).1
  exact absurd h2 (by norm_num)

/-- **C4 (amended).** If additionally the catalog's consecutive clamped
padded windows do not overlap and every interval's clamped padded window is
non-empty, then for speeds ≥ 1 the estimator's output duration never exceeds
the input duration `D`, and it equals `D` when both speeds are 1. -/
theorem c4_output_duration_bounds (sns sws buf D : ℚ) (catalog : List SubtitleSegment)
    (hD : 0 < D) (hbuf : 0 ≤ buf) (h1 : 1 ≤ sns) (h2 : 1 ≤ sws)
    (hsep : SeparatedCatalog buf D catalog)
    (hwin : ∀ iv ∈ catalog, calculate_subtitle_start buf iv.start_time ≤
      calculate_subtitle_end buf iv.end_time D) :
    output_duration_sum (create_video_segments sns sws buf catalog D) ≤ D ∧
    (sns = 1 → sws = 1 →
      output_duration_sum (create_video_segments sns sws buf catalog D) = D) := by
  have hsep0 : ∀ iv, catalog.head? = some iv →
      (0 : ℚ) ≤ calculate_subtitle_start buf iv.start_time :=
    fun iv _ => le_max_left 0 _
  have hsum : ((create_video_segments sns sws buf catalog D).map
      VideoSegment.duration).sum = D - 0 :=
    duration_sum_create_video_segments_go catalog 0 (le_of_lt hD) hsep0 hsep
  rw [sub_zero] at hsum
  constructor
  · have hle := output_duration_sum_le_duration_sum
      (create_video_segments sns sws buf catalog D) ?_
    · rw [hsum] at hle
      exact hle
    · intro seg hmem
      rcases mem_create_video_segments_go catalog 0 seg hmem with
        ⟨_, hsp, hlt⟩ | ⟨_, hsp, iv, hiv, hs, he⟩
      · exact ⟨le_of_lt (sub_pos.mpr hlt), hsp ▸ h1⟩
      · refine ⟨?_, hsp ▸ h2⟩
        rw [VideoSegment.duration, hs, he]
        exact sub_nonneg.mpr (hwin iv hiv)
  · intro e1 e2
    have heq := output_duration_sum_eq_duration_sum
      (create_video_segments sns sws buf catalog D) ?_
    · rw [heq, hsum]
    · intro seg hmem
      rcases mem_create_video_segments_go catalog 0 seg hmem with
        ⟨_, hsp, _⟩ | ⟨_, hsp, _⟩
      · rw [hsp, e1]
      · rw [hsp, e2]

/-- Witness for C4 at the spec §8 example with both speeds 1: the output
duration is exactly the input duration. -/
theorem c4_output_duration_bounds_witness :
    ((0 : ℚ) < 100 ∧ (0 : ℚ) ≤ 1/2 ∧ (1 : ℚ) ≤ 1 ∧
      SeparatedCatalog (1/2) 100 [⟨10, 12, []⟩] ∧
      (∀ iv ∈ [(⟨10, 12, []⟩ : SubtitleSegment)],
        calculate_subtitle_start (1/2) iv.start_time ≤
          calculate_subtitle_end (1/2) iv.end_time 100)) ∧
    output_duration_sum (create_video_segments 1 1 (1/2) [⟨10, 12, []⟩] 100) ≤ 100 ∧
    output_duration_sum (create_video_segments 1 1 (1/2) [⟨10, 12, []⟩] 100) = 100 :=
  ⟨⟨by norm_num, by norm_num, le_refl 1, List.chain'_singleton _,
      by with_unfolding_all decide⟩,
    (c4_output_duration_bounds 1 1 (1/2) 100 [⟨10, 12, []⟩] (by norm_num) (by norm_num)
      (le_refl 1) (le_refl 1) (List.chain'_singleton _)
      (by with_unfolding_all decide)).1,
    (c4_output_duration_bounds 1 1 (1/2) 100 [⟨10, 12, []⟩] (by norm_num) (by norm_num)
      (le_refl 1) (le_refl 1) (List.chain'_singleton _)
      (by with_unfolding_all decide)).2 rfl rfl⟩

/-- **C4 counterexample.** With the invariant-satisfying catalog
[(1,2),(11/5,3)], buffer 1/2, duration 10 and both speeds 1 (so `s1,s2 ≥ 1`),
the overlapping padded windows are double-counted: the estimator returns
54/5 = 10.8 > 10, refuting both the `≤ D` bound and the `= D` equality. -/
theorem c4_counterexample_overlap_inflates_output :
    ((1 : ℚ) ≤ 1 ∧ (0 : ℚ) ≤ 1/2 ∧ (0 : ℚ) < 10 ∧
      (1 : ℚ) < 2 ∧ (11/5 : ℚ) < 3 ∧ (1 : ℚ) ≤ 11/5) ∧
    output_duration_sum (create_video_segments 1 1 (1/2) [⟨1, 2, []⟩, ⟨11/5, 3, []⟩] 10)
      = 54/5 ∧
    ¬ ((54/5 : ℚ) ≤ 10) := by
  refine ⟨by norm_num, ?_, by norm_num⟩
  with_unfolding_all decide

/-- **C3 (amended).** The parameter validation raises `ValidationError`
exactly when a speed is ≤ 0 or the buffer is negative.  The total duration is
never examined by validation (and `_create_video_segments` is a total
function over all inputs, including durations ≤ 0). -/
theorem c3_validation_characterization (sns sws buf : ℚ) :
    (validate_inputs sns sws buf = Except.ok () ↔ (0 < sns ∧ 0 < sws ∧ 0 ≤ buf)) ∧
    ((∃ e, validate_inputs sns sws buf = Except.error e) ↔
      (sns ≤ 0 ∨ sws ≤ 0 ∨ buf < 0)) := by
  unfold validate_inputs
  split_ifs with h1 h2
  · refine ⟨iff_of_false (by simp) ?_, iff_of_true ⟨_, rfl⟩ ?_⟩
    · rintro ⟨ha, hb, _⟩
      rcases h1 with h | h
      · exact absurd ha (not_lt.mpr h)
      · exact absurd hb (not_lt.mpr h)
    · rcases h1 with h | h
      · exact Or.inl h
      · exact Or.inr (Or.inl h)
  · refine ⟨iff_of_false (by simp) ?_, iff_of_true ⟨_, rfl⟩ (Or.inr (Or.inr h2))⟩
    rintro ⟨_, _, hc⟩
    exact absurd h2 (not_lt.mpr hc)
  · push_neg at h1
    refine ⟨iff_of_true rfl ⟨h1.1, h1.2, not_lt.mp h2⟩, iff_of_false ?_ ?_⟩
    · rintro ⟨e, he⟩
      simp at he
    · rintro (h | h | h)
      · exact absurd h (not_le.mpr h1.1)
      · exact absurd h (not_le.mpr h1.2)
      · exact absurd h h2

/-- **C3 counterexample.** With duration 0 (which is ≤ 0) and otherwise valid
parameters, nothing fails: validation passes (it never sees the duration) and
`_create_video_segments` returns a plain (here empty) segment list instead of
raising `InvalidParameter`. -/
theorem c3_counterexample_duration_not_validated :
    validate_inputs 1 1 0 = Except.ok () ∧
    create_video_segments 1 1 0 [] 0 = [] ∧ ((0 : ℚ) ≤ 0) := by
  refine ⟨?_, ?_, le_refl 0⟩
  · with_unfolding_all rfl
  · with_unfolding_all rfl

end VideoSpeedProcessor

namespace SubtitleParser

/-- A block whose (stripped) text has fewer than 3 lines, or whose second
line lacks the `' --> '` delimiter, is skipped silently (`return None`). -/
lemma parse_srt_block_ok_none {blk : Str}
    (h : (splitOnChar '\n' blk).length < 3 ∨
      (splitArrow ((splitOnChar '\n' blk).getD 1 [])).length = 1) :
    parse_srt_block blk = Except.ok none := by
  simp only [parse_srt_block]
  by_cases h3 : (splitOnChar '\n' blk).length < 3
  · rw [if_pos h3]
  · rw [if_neg h3]
    rcases h with h | h
    · exact absurd h h3
    · rcases hsp : splitArrow ((splitOnChar '\n' blk).getD 1 []) with _ | ⟨x, _ | ⟨y, tl⟩⟩
      · rw [hsp] at h
        exact absurd h (by simp)
      · rfl
      · rw [hsp] at h
        simp at h

/-- A block with enough lines and a two-part timing line whose timestamps do
not both parse raises `SubtitleExtractionError`. -/
lemma parse_srt_block_err {blk : Str} (h3 : 3 ≤ (splitOnChar '\n' blk).length)
    {a c : Str} (hsp : splitArrow ((splitOnChar '\n' blk).getD 1 []) = [a, c])
    (hbad : parse_srt_time (pyStrip a) = none ∨ parse_srt_time (pyStrip c) = none) :
    parse_srt_block blk = Except.error "Invalid SRT block format" := by
  simp only [parse_srt_block]
  rw [if_neg (not_lt.mpr h3), hsp]
  rcases hbad with hb | hb
  · cases hc : parse_srt_time (pyStrip c) <;> simp [hb, hc]
  · cases ha : parse_srt_time (pyStrip a) <;> simp [hb, ha]

/-- Silently-skipped blocks contribute nothing: removing them from the block
list does not change the collected catalog. -/
lemma collectBlocks_skip {b : Str} (hb : parse_srt_block (pyStrip b) = Except.ok none) :
    ∀ (bs1 bs2 : List Str),
      collectBlocks (bs1 ++ b :: bs2) = collectBlocks (bs1 ++ bs2)
  | [], bs2 => by
      rw [List.nil_append, List.nil_append, collectBlocks, hb]
      cases collectBlocks bs2 <;> rfl
  | b1 :: bs1, bs2 => by
      rw [List.cons_append, List.cons_append, collectBlocks, collectBlocks,
        collectBlocks_skip hb bs1 bs2]

/-- One erroring block aborts the whole collection. -/
lemma collectBlocks_error {b : Str} {e0 : String}
    (hb : parse_srt_block (pyStrip b) = Except.error e0) :
    ∀ (bs : List Str), b ∈ bs → ∃ e, collectBlocks bs = Except.error e
  | b1 :: rest, hmem => by
      rcases List.mem_cons.mp hmem with rfl | hmem'
      · exact ⟨e0, by rw [collectBlocks, hb]⟩
      · rw [collectBlocks]
        cases hp : parse_srt_block (pyStrip b1) with
        | error e => exact ⟨e, rfl⟩
        | ok r =>
            rcases collectBlocks_error hb rest hmem' with ⟨e, he⟩
            rw [he]
            exact ⟨e, rfl⟩

/-- **C7.** During catalog building, a block whose stripped text has fewer
than 3 lines or whose timing line lacks the `' --> '` separator is dropped
silently (the rest of the catalog is still built), whereas a timestamp parse
failure inside a block with enough lines and the separator aborts the whole
catalog build with `SubtitleFormatError` — no partial result is returned. -/
theorem c7_block_skip_vs_timestamp_abort (content : Str) (bs1 bs2 : List Str) (b : Str)
    (hblocks : splitTwoNl (pyStrip content) = bs1 ++ b :: bs2) :
    (((splitOnChar '\n' (pyStrip b)).length < 3 ∨
        (splitArrow ((splitOnChar '\n' (pyStrip b)).getD 1 [])).length = 1) →
      parse_srt_file content =
        (collectBlocks (bs1 ++ bs2)).map (List.insertionSort byStart)) ∧
    (∀ a c, 3 ≤ (splitOnChar '\n' (pyStrip b)).length →
      splitArrow ((splitOnChar '\n' (pyStrip b)).getD 1 []) = [a, c] →
      (parse_srt_time (pyStrip a) = none ∨ parse_srt_time (pyStrip c) = none) →
      ∃ e, parse_srt_file content = Except.error e) := by
  constructor
  · intro hskip
    rw [parse_srt_file, hblocks, collectBlocks_skip (parse_srt_block_ok_none hskip) bs1 bs2]
  · intro a c h3 hsp hbad
    rcases collectBlocks_error (parse_srt_block_err h3 hsp hbad) (bs1 ++ b :: bs2)
      (List.mem_append_right bs1 (List.mem_cons_self b bs2)) with ⟨e, he⟩
    exact ⟨e, by rw [parse_srt_file, hblocks, he]; rfl⟩

/-- Witness for C7: the 1-line block "ab" is dropped silently while the rest
of the track still parses; the block with the unparseable timestamp "bad"
aborts the whole build. -/
theorem c7_block_skip_vs_timestamp_abort_witness :
    (splitTwoNl (pyStrip "ab\n\n1\n00:00:02,000 --> 00:00:03,000\nb".data) =
        [] ++ "ab".data :: ["1\n00:00:02,000 --> 00:00:03,000\nb".data] ∧
      ((splitOnChar '\n' (pyStrip "ab".data)).length < 3 ∨
        (splitArrow ((splitOnChar '\n' (pyStrip "ab".data)).getD 1 [])).length = 1) ∧
      parse_srt_file "ab\n\n1\n00:00:02,000 --> 00:00:03,000\nb".data =
        (collectBlocks ([] ++ ["1\n00:00:02,000 --> 00:00:03,000\nb".data])).map
          (List.insertionSort byStart)) ∧
    (splitTwoNl (pyStrip "1\nbad --> 00:00:02,000\nx".data) =
        [] ++ "1\nbad --> 00:00:02,000\nx".data :: [] ∧
      3 ≤ (splitOnChar '\n' (pyStrip "1\nbad --> 00:00:02,000\nx".data)).length ∧
      splitArrow ((splitOnChar '\n'
        (pyStrip "1\nbad --> 00:00:02,000\nx".data)).getD 1 []) =
          ["bad".data, "00:00:02,000".data] ∧
      parse_srt_time (pyStrip "bad".data) = none ∧
      ∃ e, parse_srt_file "1\nbad --> 00:00:02,000\nx".data = Except.error e) := by
  refine ⟨⟨?_, ?_, ?_⟩, ?_, ?_, ?_, ?_, ?_⟩
  · with_unfolding_all decide
  · with_unfolding_all decide
  · exact (c7_block_skip_vs_timestamp_abort
      "ab\n\n1\n00:00:02,000 --> 00:00:03,000\nb".data []
      ["1\n00:00:02,000 --> 00:00:03,000\nb".data] "ab".data
      (by with_unfolding_all decide)).1 (by with_unfolding_all decide)
  · with_unfolding_all decide
  · with_unfolding_all decide
  · with_unfolding_all decide
  · with_unfolding_all decide
  · exact (c7_block_skip_vs_timestamp_abort "1\nbad --> 00:00:02,000\nx".data [] []
      "1\nbad --> 00:00:02,000\nx".data (by with_unfolding_all decide)).2
      "bad".data "00:00:02,000".data (by with_unfolding_all decide)
      (by with_unfolding_all decide) (Or.inl (by with_unfolding_all decide))

/-- **C6 (amended).** `_parse_srt_time` fails (raises `ValueError`, the
`MalformedTimestamp` failure) exactly when, after normalizing `,` to `.`, the
input does not consist of exactly three colon-separated components each
parsing as a number under Python `float()`.  Signed (hence negative)
components are accepted, not rejected. -/
theorem c6_parse_time_error_characterization (s : Str) :
    parse_srt_time s = none ↔
      ¬ ∃ h m sec, splitOnChar ':' (s.map (fun c => if c = ',' then '.' else c))
          = [h, m, sec] ∧
        (pyFloat h).isSome ∧ (pyFloat m).isSome ∧ (pyFloat sec).isSome := by
  constructor
  · rintro hnone ⟨h, m, sec, hsplit, hh, hm, hs⟩
    rcases Option.isSome_iff_exists.mp hh with ⟨x, hx⟩
    rcases Option.isSome_iff_exists.mp hm with ⟨y, hy⟩
    rcases Option.isSome_iff_exists.mp hs with ⟨z, hz⟩
    simp only [parse_srt_time] at hnone
    rw [hsplit] at hnone
    simp [hx, hy, hz] at hnone
  · intro hno
    simp only [parse_srt_time]
    rcases hsp : splitOnChar ':' (s.map (fun c => if c = ',' then '.' else c)) with
      _ | ⟨a, _ | ⟨b, _ | ⟨c, _ | ⟨d, tl⟩⟩⟩⟩
    · rfl
    · rfl
    · rfl
    · cases hx : pyFloat a with
      | none => simp [hx]
      | some x =>
          cases hy : pyFloat b with
          | none => simp [hx, hy]
          | some y =>
              cases hz : pyFloat c with
              | none => simp [hx, hy, hz]
              | some z =>
                  exact absurd
                    ⟨a, b, c, hsp, by simp [hx], by simp [hy], by simp [hz]⟩ hno
    · rfl

/-- **C6 counterexample.** "00:00:-1" has a component that parses as the
negative number -1; the claim requires the parse to fail, but the code
accepts it and returns -1.0 (Python `float()` accepts signed literals, and no
non-negativity check is performed). -/
theorem c6_counterexample_negative_component_accepted :
    parse_srt_time "00:00:-1".data = some (-1) ∧
    pyFloat "-1".data = some (-1) ∧ (-1 : ℚ) < 0 := by
  refine ⟨?_, ?_, by norm_num⟩ <;> with_unfolding_all decide

/-- Ordered insertion with the non-strict key order `byStart` goes past all
strictly smaller keys and stops before equal keys, so a filter by any single
key value sees the insertion either as a prepend (for the inserted element's
own key) or not at all. -/
lemma filter_orderedInsert_byStart (a : SubtitleSegment) :
    ∀ (l : List SubtitleSegment) (k : ℚ),
      (List.orderedInsert byStart a l).filter (fun x => x.start_time == k) =
        if a.start_time = k then
          a :: l.filter (fun x => x.start_time == k)
        else l.filter (fun x => x.start_time == k)
  | [], k => by
      by_cases hk : a.start_time = k
      · simp [List.orderedInsert, List.filter, hk]
      · have hk2 : (a.start_time == k) = false := by
          simp [hk]
        simp [List.orderedInsert, List.filter, hk, hk2]
  | b :: t, k => by
      rw [List.orderedInsert]
      by_cases hr : byStart a b
      · rw [if_pos hr]
        by_cases hk : a.start_time = k <;> simp [List.filter_cons, hk]
      · rw [if_neg hr]
        have hbk : b.start_time < a.start_time := not_le.mp hr
        by_cases hk : a.start_time = k
        · have hbne : b.start_time ≠ k := hk ▸ ne_of_lt hbk
          simp [List.filter_cons, hbne, hk, filter_orderedInsert_byStart a t k]
        · simp [List.filter_cons, hk, filter_orderedInsert_byStart a t k]

/-- Python's `sorted` (modelled by `insertionSort` with the non-strict key
order) is stable: filtering by any single key value is unchanged by the
sort. -/
lemma filter_insertionSort_byStart :
    ∀ (l : List SubtitleSegment) (k : ℚ),
      (List.insertionSort byStart l).filter (fun x => x.start_time == k) =
        l.filter (fun x => x.start_time == k)
  | [], _ => rfl
  | a :: t, k => by
      rw [List.insertionSort, filter_orderedInsert_byStart a (List.insertionSort byStart t) k]
      by_cases hk : a.start_time = k <;>
        simp [hk, List.filter_cons, filter_insertionSort_byStart t k]

/-- **C8 (amended).** Every catalog returned by `parse_srt_file` is sorted
ascending by `start_time` and is a stable reordering of the intervals parsed
from the blocks: a permutation in which, for every start key, the intervals
with that key keep their original relative order.  (The `end > start` part of
the claimed invariant does not hold: the parser performs no such check.) -/
theorem c8_catalog_sorted_stable (content : Str) (cat raw : List SubtitleSegment)
    (hok : parse_srt_file content = Except.ok cat)
    (hraw : collectBlocks (splitTwoNl (pyStrip content)) = Except.ok raw) :
    List.Sorted byStart cat ∧ cat.Perm raw ∧
    ∀ k : ℚ, cat.filter (fun x => x.start_time == k) =
      raw.filter (fun x => x.start_time == k) := by
  rw [parse_srt_file, hraw] at hok
  simp only [Except.map] at hok
  cases hok
  exact ⟨List.sorted_insertionSort byStart raw, List.perm_insertionSort byStart raw,
    fun k => filter_insertionSort_byStart raw k⟩

/-- Witness for C8: an out-of-order two-block track is parsed, sorted by
start, and remains a (stable) permutation of the parsed blocks. -/
theorem c8_catalog_sorted_stable_witness :
    (parse_srt_file
        "1\n00:00:02,000 --> 00:00:03,000\nb\n\n2\n00:00:00,000 --> 00:00:01,000\na".data
        = Except.ok [⟨0, 1, "a".data⟩, ⟨2, 3, "b".data⟩] ∧
      collectBlocks (splitTwoNl (pyStrip
        "1\n00:00:02,000 --> 00:00:03,000\nb\n\n2\n00:00:00,000 --> 00:00:01,000\na".data))
        = Except.ok [⟨2, 3, "b".data⟩, ⟨0, 1, "a".data⟩]) ∧
    (List.Sorted byStart [(⟨0, 1, "a".data⟩ : SubtitleSegment), ⟨2, 3, "b".data⟩] ∧
      List.Perm [(⟨0, 1, "a".data⟩ : SubtitleSegment), ⟨2, 3, "b".data⟩]
        [⟨2, 3, "b".data⟩, ⟨0, 1, "a".data⟩] ∧
      ([(⟨0, 1, "a".data⟩ : SubtitleSegment), ⟨2, 3, "b".data⟩]).filter
          (fun x => x.start_time == 0) =
        ([(⟨2, 3, "b".data⟩ : SubtitleSegment), ⟨0, 1, "a".data⟩]).filter
          (fun x => x.start_time == 0)) :=
  by
  have h := c8_catalog_sorted_stable
    "1\n00:00:02,000 --> 00:00:03,000\nb\n\n2\n00:00:00,000 --> 00:00:01,000\na".data
    [⟨0, 1, "a".data⟩, ⟨2, 3, "b".data⟩]
    [⟨2, 3, "b".data⟩, ⟨0, 1, "a".data⟩]
    (by with_unfolding_all rfl) (by with_unfolding_all rfl)
  exact ⟨⟨by with_unfolding_all rfl, by with_unfolding_all rfl⟩, h.1, h.2.1, h.2.2 0⟩

/-- **C8 counterexample.** The block "1 / 00:00:05,000 --> 00:00:03,000 / hi"
parses into a catalog whose single interval has `end = 3 < 5 = start`: the
builder never checks `end > start`, refuting that part of the invariant. -/
theorem c8_counterexample_end_not_gt_start :
    parse_srt_file "1\n00:00:05,000 --> 00:00:03,000\nhi".data =
      Except.ok [⟨5, 3, "hi".data⟩] ∧ ¬((5 : ℚ) < 3) := by
  refine ⟨?_, by norm_num⟩
  with_unfolding_all rfl

end SubtitleParser
